import Mathlib

/-!
Shallow embedding of the core of `src/app.py` (stock stochastic trade
analyzer): the trade simulator `evaluate_targets`, the scorer
`calculate_weighted_score`, the summary-row construction, the short-RSI
indicator chain, and the entry filter.

Prices are modelled as exact rationals; timestamps as integer day numbers
(the app works on daily bars, so pandas timestamp subtraction `.days` is
the plain integer difference).  Python's 2-decimal `round` is modelled by
`round2` (round half to even).  Values flowing through the pandas
indicator pipeline, where NaN and infinities arise, are modelled by the
type `FVal` with IEEE-754-style propagation.
-/

set_option maxRecDepth 8000

namespace Stors

/-- Round half to even, as Python's `round` does on exact halves. -/
def roundHalfEven (x : ℚ) : ℤ :=
  let f := ⌊x⌋
  let r := x - f
  if r < 1/2 then f
  else if 1/2 < r then f + 1
  else if f % 2 = 0 then f else f + 1

/-- `round(x, 2)` from the source: round to 2 decimal places. -/
def round2 (x : ℚ) : ℚ := (roundHalfEven (x * 100) : ℚ) / 100

/-- One daily price bar: `datetime` is the day number, prices are the
`low`/`high`/`close` columns used by the core. -/
structure Bar where
  datetime : ℤ
  low : ℚ
  high : ℚ
  close : ℚ
deriving DecidableEq, Repr

/-- The `results` dict of `evaluate_targets` (src/app.py lines 39-40):
one counter per outcome bucket plus the separate `Overlapping` counter. -/
structure Results where
  le5 : ℕ
  d5to10 : ℕ
  d10to20 : ℕ
  d20to30 : ℕ
  gt30 : ℕ
  neverHit : ℕ
  overlapping : ℕ
deriving DecidableEq, Repr

/-- One record of `trades_list` (src/app.py lines 71-93). -/
structure Trade where
  entryDate : ℤ
  entryPrice : ℚ
  exitDate : Option ℤ
  exitHitPrice : Option ℚ
  outcome : String
  holdingDays : Option ℤ
  overlapStatus : String
deriving DecidableEq, Repr

/-- The loop state of `evaluate_targets`: the accumulating `results`,
`open_trade_pending`, and the accumulating `trades_list`. -/
structure SimState where
  results : Results
  pending : Option ℤ
  trades : List Trade
deriving DecidableEq, Repr

/-- `future_data = df[df['datetime'] > entry_date]` followed by
`hit_target = future_data[future_data['high'] >= target_price]`
(src/app.py lines 48-49). -/
def hitTarget (df : List Bar) (entry_date : ℤ) (target_price : ℚ) : List Bar :=
  (df.filter fun b => decide (entry_date < b.datetime)).filter
    fun b => decide (target_price ≤ b.high)

/-- `open_trade_pending is not None and entry_date > open_trade_pending`
(src/app.py line 52). -/
def overlapB (pending : Option ℤ) (entry_date : ℤ) : Bool :=
  match pending with
  | some p => decide (p < entry_date)
  | none => false

/-- The holding-day bucket classification (src/app.py lines 60-69). -/
def bucketInc (r : Results) (holding_days : ℤ) : Results :=
  if holding_days ≤ 5 then { r with le5 := r.le5 + 1 }
  else if holding_days ≤ 10 then { r with d5to10 := r.d5to10 + 1 }
  else if holding_days ≤ 20 then { r with d10to20 := r.d10to20 + 1 }
  else if holding_days ≤ 30 then { r with d20to30 := r.d20to30 + 1 }
  else { r with gt30 := r.gt30 + 1 }

/-- The trade record appended for one entry row, given the overlap flag
computed from the incoming `open_trade_pending` (src/app.py lines 56-93). -/
def tradeFor (df : List Bar) (row : Bar) (ov : Bool) : Trade :=
  match hitTarget df row.datetime (round2 (1.05 * row.close)) with
  | first :: _ =>
      { entryDate := row.datetime
        entryPrice := row.close
        exitDate := some first.datetime
        exitHitPrice := some first.high
        outcome := "Target Hit"
        holdingDays := some (first.datetime - row.datetime)
        overlapStatus := if ov then "Yes" else "No" }
  | [] =>
      { entryDate := row.datetime
        entryPrice := row.close
        exitDate := none
        exitHitPrice := none
        outcome := "Open Trade"
        holdingDays := none
        overlapStatus := if ov then "Yes" else "No" }

/-- One iteration of the `for _, row in entries.iterrows()` loop of
`evaluate_targets` (src/app.py lines 44-93). -/
def evalStep (df : List Bar) (st : SimState) (row : Bar) : SimState :=
  let ov := overlapB st.pending row.datetime
  let r0 := if ov then { st.results with overlapping := st.results.overlapping + 1 }
            else st.results
  match hitTarget df row.datetime (round2 (1.05 * row.close)) with
  | first :: _ =>
      { results := bucketInc r0 (first.datetime - row.datetime)
        pending := st.pending
        trades := st.trades ++ [tradeFor df row ov] }
  | [] =>
      { results := { r0 with neverHit := r0.neverHit + 1 }
        pending := match st.pending with
                   | none => some row.datetime
                   | some p => some p
        trades := st.trades ++ [tradeFor df row ov] }

/-- The initial loop state of `evaluate_targets`: all counters 0,
`open_trade_pending = None`, empty trade list. -/
def initState : SimState :=
  { results := ⟨0, 0, 0, 0, 0, 0, 0⟩, pending := none, trades := [] }

/-- `evaluate_targets(df, entries)` (src/app.py lines 38-95): returns the
bucket counters and the trade log. -/
def evaluate_targets (df entries : List Bar) : Results × List Trade :=
  let fin := entries.foldl (evalStep df) initState
  (fin.results, fin.trades)

/-- `calculate_weighted_score(results, total_trades)` (src/app.py
lines 97-110). -/
def calculate_weighted_score (results : Results) (total_trades : ℕ) : ℚ :=
  if total_trades = 0 then 0
  else
    round2 (((results.le5 : ℚ) / total_trades * 100) * 0.50 +
            ((results.d5to10 : ℚ) / total_trades * 100) * 0.25 +
            ((results.d10to20 : ℚ) / total_trades * 100) * 0.125 +
            ((results.d20to30 : ℚ) / total_trades * 100) * 0.075 +
            ((results.gt30 : ℚ) / total_trades * 100) * 0.05 -
            ((results.neverHit : ℚ) / total_trades * 100) * 0.075 -
            ((results.overlapping : ℚ) / total_trades * 100) * 0.10)

/-- The summary record appended per symbol (src/app.py lines 151-162). -/
structure SummaryRow where
  totalTrades : ℕ
  le5pct : ℚ
  d5to10pct : ℚ
  d10to20pct : ℚ
  d20to30pct : ℚ
  gt30pct : ℚ
  neverHitPct : ℚ
  overlappingPct : ℚ
  score : ℚ
deriving DecidableEq, Repr

/-- `pct(x) = (x / total_trades * 100) if total_trades > 0 else 0`
(src/app.py line 147). -/
def pctOr0 (total_trades : ℕ) (x : ℕ) : ℚ :=
  if 0 < total_trades then (x : ℚ) / total_trades * 100 else 0

/-- Building one summary row from the simulator results (src/app.py
lines 144-162): `total_trades = len(entries)`, bucket percentages via
`pct` rounded to 2 decimals, and the weighted score. -/
def mkSummaryRow (df entries : List Bar) : SummaryRow :=
  let total_trades := entries.length
  let results := (evaluate_targets df entries).1
  { totalTrades := total_trades
    le5pct := round2 (pctOr0 total_trades results.le5)
    d5to10pct := round2 (pctOr0 total_trades results.d5to10)
    d10to20pct := round2 (pctOr0 total_trades results.d10to20)
    d20to30pct := round2 (pctOr0 total_trades results.d20to30)
    gt30pct := round2 (pctOr0 total_trades results.gt30)
    neverHitPct := round2 (pctOr0 total_trades results.neverHit)
    overlappingPct := round2 (pctOr0 total_trades results.overlapping)
    score := calculate_weighted_score results total_trades }

/-! ### Float values of the pandas indicator pipeline

The indicator columns are float64 series: besides ordinary numbers they
carry NaN (e.g. from `diff()` at the first row or from an incomplete
rolling window, pandas' marker for a missing value) and signed
infinities (numpy division of a nonzero number by zero).  `FVal` models
exactly these values, with the IEEE-754 semantics numpy applies. -/

inductive FVal where
  | num : ℚ → FVal
  | inf : FVal
  | ninf : FVal
  | nan : FVal
deriving DecidableEq, Repr

/-- IEEE addition as numpy performs it on float64 values. -/
def fAdd : FVal → FVal → FVal
  | .nan, _ => .nan
  | _, .nan => .nan
  | .num a, .num b => .num (a + b)
  | .inf, .ninf => .nan
  | .ninf, .inf => .nan
  | .inf, _ => .inf
  | _, .inf => .inf
  | .ninf, _ => .ninf
  | _, .ninf => .ninf

/-- IEEE negation. -/
def fNeg : FVal → FVal
  | .num a => .num (-a)
  | .inf => .ninf
  | .ninf => .inf
  | .nan => .nan

/-- IEEE subtraction. -/
def fSub (x y : FVal) : FVal := fAdd x (fNeg y)

/-- IEEE division as numpy performs it: a nonzero number divided by zero
gives a signed infinity, `0/0` gives NaN. -/
def fDiv : FVal → FVal → FVal
  | .nan, _ => .nan
  | _, .nan => .nan
  | .num a, .num b =>
      if b = 0 then (if 0 < a then .inf else if a < 0 then .ninf else .nan)
      else .num (a / b)
  | .num _, .inf => .num 0
  | .num _, .ninf => .num 0
  | .inf, .num b => if b < 0 then .ninf else .inf
  | .ninf, .num b => if b < 0 then .inf else .ninf
  | .inf, _ => .nan
  | .ninf, _ => .nan

/-- `x > 0` on a float value: NaN compares false. -/
def fPos : FVal → Bool
  | .num a => decide (0 < a)
  | .inf => true
  | _ => false

/-- `x < 0` on a float value: NaN compares false. -/
def fNegLtZero : FVal → Bool
  | .num a => decide (a < 0)
  | .ninf => true
  | _ => false

/-- `x < c` against a rational constant: NaN compares false. -/
def fLtC (x : FVal) (c : ℚ) : Bool :=
  match x with
  | .num a => decide (a < c)
  | .ninf => true
  | _ => false

/-- `x > y` on float values: any NaN operand compares false. -/
def fGtF : FVal → FVal → Bool
  | .nan, _ => false
  | _, .nan => false
  | .num a, .num b => decide (b < a)
  | .inf, .inf => false
  | .inf, _ => true
  | _, .inf => false
  | .ninf, _ => false
  | .num _, .ninf => true

/-! ### The short-RSI chain (src/app.py lines 132-138)

`delta = df['close'].diff()`; `gain = delta.where(delta > 0, 0)`;
`loss = -delta.where(delta < 0, 0)`; `avg_gain/avg_loss` are 2-bar
rolling means; `rs = avg_gain / avg_loss`;
`df['RSI_2'] = 100 - (100 / (1 + rs))`.  Everything is indexed by the
row position `i` into the list of close prices. -/

/-- `df['close'].diff()` at row `i`: NaN on the first row. -/
def deltaAt (closes : List ℚ) (i : ℕ) : FVal :=
  match i with
  | 0 => .nan
  | j + 1 =>
      match closes[j + 1]?, closes[j]? with
      | some a, some b => .num (a - b)
      | _, _ => .nan

/-- `delta.where(delta > 0, 0)` at row `i`: NaN fails the condition and
is replaced by 0. -/
def gainAt (closes : List ℚ) (i : ℕ) : FVal :=
  if fPos (deltaAt closes i) then deltaAt closes i else .num 0

/-- `-delta.where(delta < 0, 0)` at row `i`. -/
def lossAt (closes : List ℚ) (i : ℕ) : FVal :=
  fNeg (if fNegLtZero (deltaAt closes i) then deltaAt closes i else .num 0)

/-- `gain.rolling(window=2).mean()` at row `i`: NaN on the first row
(incomplete window), else the mean of rows `i-1` and `i`. -/
def avgGainAt (closes : List ℚ) (i : ℕ) : FVal :=
  match i with
  | 0 => .nan
  | j + 1 => fDiv (fAdd (gainAt closes j) (gainAt closes (j + 1))) (.num 2)

/-- `loss.rolling(window=2).mean()` at row `i`. -/
def avgLossAt (closes : List ℚ) (i : ℕ) : FVal :=
  match i with
  | 0 => .nan
  | j + 1 => fDiv (fAdd (lossAt closes j) (lossAt closes (j + 1))) (.num 2)

/-- `rs = avg_gain / avg_loss` at row `i`. -/
def rsAt (closes : List ℚ) (i : ℕ) : FVal :=
  fDiv (avgGainAt closes i) (avgLossAt closes i)

/-- `df['RSI_2'] = 100 - (100 / (1 + rs))` at row `i`. -/
def RSI_2 (closes : List ℚ) (i : ℕ) : FVal :=
  fSub (.num 100) (fDiv (.num 100) (fAdd (.num 1) (rsAt closes i)))

/-! ### The entry filter (src/app.py lines 142-143) -/

/-- One row of the indicator-augmented frame: the raw bar columns plus
the four derived indicator columns (float values, possibly NaN). -/
structure IRow where
  datetime : ℤ
  close : FVal
  kv : FVal
  dv : FVal
  rsiv : FVal
  mav : FVal
deriving DecidableEq, Repr

/-- The boolean mask
`(df['%K'] < 20) & (df['%D'] < 20) & (df['RSI_2'] < 15) & (df['close'] > df['200DMA'])`
for one row; pandas comparisons with NaN are false. -/
def entryPred (r : IRow) : Bool :=
  fLtC r.kv 20 && fLtC r.dv 20 && fLtC r.rsiv 15 && fGtF r.close r.mav

/-- `entries = df[mask].copy()` (src/app.py lines 142-143): the rows of
the frame satisfying the entry condition, in frame order. -/
def entriesOf (frame : List IRow) : List IRow :=
  frame.filter entryPred

/-- Sum of the six mutually exclusive outcome buckets (the `Overlapping`
counter is separate). -/
def bucketSum (r : Results) : ℕ :=
  r.le5 + r.d5to10 + r.d10to20 + r.d20to30 + r.gt30 + r.neverHit

/-! ### Concrete example data used to instantiate the theorems -/

/-- A tiny strictly-increasing daily series: flat, one high spike, one dip. -/
def dfEx : List Bar :=
  [⟨0, 10, 10, 10⟩, ⟨1, 10, 11, 10⟩, ⟨2, 9, 9.5, 9⟩]

/-- Two entries over `dfEx`: the first hits its target the next day, the
second never does. -/
def entriesEx : List Bar :=
  [⟨0, 10, 10, 10⟩, ⟨2, 9, 9.5, 9⟩]

/-- The trade record the simulator emits for the first entry of
`entriesEx` over `dfEx`. -/
def trEx : Trade :=
  { entryDate := 0
    entryPrice := 10
    exitDate := some 1
    exitHitPrice := some 11
    outcome := "Target Hit"
    holdingDays := some 1
    overlapStatus := "No" }

/-- A simulator state whose pending marker is set to day 0. -/
def stPendEx : SimState :=
  { results := ⟨0, 0, 0, 0, 0, 0, 0⟩, pending := some 0, trades := [] }

/-- A bar strictly after the pending marker of `stPendEx`. -/
def barEx : Bar := ⟨1, 1, 1, 1⟩

/-- An indicator row whose `%K` cell is NaN. -/
def rowNanEx : IRow :=
  { datetime := 0, close := .num 10, kv := .nan, dv := .num 1,
    rsiv := .num 1, mav := .num 1 }

/-- An indicator row satisfying all four entry conditions. -/
def rowOkEx : IRow :=
  { datetime := 1, close := .num 10, kv := .num 1, dv := .num 1,
    rsiv := .num 1, mav := .num 5 }

/-! ## Helper lemmas -/

lemma mem_hitTarget (df : List Bar) (e : ℤ) (t : ℚ) (b : Bar) :
    b ∈ hitTarget df e t ↔ b ∈ df ∧ e < b.datetime ∧ t ≤ b.high := by
  simp only [hitTarget, List.mem_filter, decide_eq_true_eq]
  tauto

lemma hitTarget_nil_iff (df : List Bar) (e : ℤ) (t : ℚ) :
    hitTarget df e t = [] ↔ ∀ b ∈ df, e < b.datetime → ¬ t ≤ b.high := by
  rw [List.eq_nil_iff_forall_not_mem]
  constructor
  · intro h b hb hd ht
    exact h b ((mem_hitTarget df e t b).mpr ⟨hb, hd, ht⟩)
  · intro h b hb
    obtain ⟨hbd, hd, ht⟩ := (mem_hitTarget df e t b).mp hb
    exact h b hbd hd ht

lemma hitTarget_sublist (df : List Bar) (e : ℤ) (t : ℚ) :
    List.Sublist (hitTarget df e t) df :=
  (List.filter_sublist _).trans (List.filter_sublist _)

lemma hitTarget_cons_spec (df : List Bar)
    (hs : df.Pairwise fun a b => a.datetime < b.datetime)
    (e : ℤ) (t : ℚ) (first : Bar) (rest : List Bar)
    (h : hitTarget df e t = first :: rest) :
    first ∈ df ∧ e < first.datetime ∧ t ≤ first.high ∧
      ∀ b ∈ df, e < b.datetime → t ≤ b.high → first.datetime ≤ b.datetime := by
  have hmemfirst : first ∈ hitTarget df e t := by
    rw [h]; exact List.mem_cons_self _ _
  obtain ⟨hfd, hfe, hft⟩ := (mem_hitTarget df e t first).mp hmemfirst
  refine ⟨hfd, hfe, hft, ?_⟩
  intro b hb hd ht
  have hbmem : b ∈ hitTarget df e t := (mem_hitTarget df e t b).mpr ⟨hb, hd, ht⟩
  rw [h] at hbmem
  rcases List.mem_cons.mp hbmem with hbf | hbr
  · exact le_of_eq (congrArg Bar.datetime hbf.symm)
  · have hsub : List.Sublist (first :: rest) df := h ▸ hitTarget_sublist df e t
    have hp : List.Pairwise (fun a b => a.datetime < b.datetime) (first :: rest) :=
      List.Pairwise.sublist hsub hs
    exact le_of_lt (List.rel_of_pairwise_cons hp hbr)

lemma evalStep_trades (df : List Bar) (st : SimState) (row : Bar) :
    (evalStep df st row).trades =
      st.trades ++ [tradeFor df row (overlapB st.pending row.datetime)] := by
  cases h : hitTarget df row.datetime (round2 (1.05 * row.close)) <;>
    simp [evalStep, h]

lemma evalStep_pending_some (df : List Bar) (st : SimState) (row : Bar) (p : ℤ)
    (h : st.pending = some p) : (evalStep df st row).pending = some p := by
  cases hh : hitTarget df row.datetime (round2 (1.05 * row.close)) <;>
    simp [evalStep, hh, h]

lemma foldl_pending_some (df : List Bar) (entries : List Bar) :
    ∀ (st : SimState) (p : ℤ), st.pending = some p →
      (entries.foldl (evalStep df) st).pending = some p := by
  induction entries with
  | nil => intro st p h; simpa using h
  | cons row rest ih =>
      intro st p h
      simpa using ih (evalStep df st row) p (evalStep_pending_some df st row p h)

lemma foldl_trades_suffix (df : List Bar) (entries : List Bar) :
    ∀ st : SimState, ∃ suf : List Trade,
      (entries.foldl (evalStep df) st).trades = st.trades ++ suf ∧
      ∀ tr ∈ suf, ∃ row ∈ entries, ∃ ov : Bool, tr = tradeFor df row ov := by
  induction entries with
  | nil => intro st; exact ⟨[], by simp, by simp⟩
  | cons row rest ih =>
      intro st
      obtain ⟨suf, hsuf, hmem⟩ := ih (evalStep df st row)
      refine ⟨tradeFor df row (overlapB st.pending row.datetime) :: suf, ?_, ?_⟩
      · simpa [evalStep_trades df st row] using hsuf
      · intro tr htr
        rcases List.mem_cons.mp htr with h | h
        · exact ⟨row, List.mem_cons_self _ _, overlapB st.pending row.datetime, h⟩
        · obtain ⟨r, hr, ov, hov⟩ := hmem tr h
          exact ⟨r, List.mem_cons_of_mem _ hr, ov, hov⟩

lemma bucketInc_overlapping (r : Results) (d : ℤ) :
    (bucketInc r d).overlapping = r.overlapping := by
  unfold bucketInc
  split <;> try rfl
  split <;> try rfl
  split <;> try rfl
  split <;> rfl

lemma bucketSum_bucketInc (r : Results) (d : ℤ) :
    bucketSum (bucketInc r d) = bucketSum r + 1 := by
  unfold bucketInc
  split
  all_goals try split
  all_goals try split
  all_goals try split
  all_goals simp [bucketSum]
  all_goals omega

lemma bucketSum_evalStep (df : List Bar) (st : SimState) (row : Bar) :
    bucketSum (evalStep df st row).results = bucketSum st.results + 1 := by
  cases h : hitTarget df row.datetime (round2 (1.05 * row.close)) with
  | nil =>
      simp only [evalStep, h]
      split
      all_goals simp [bucketSum]
      all_goals omega
  | cons first rest =>
      simp only [evalStep, h]
      rw [bucketSum_bucketInc]
      split
      all_goals simp [bucketSum]

lemma round2_zero : round2 0 = 0 :=
  of_decide_eq_true (by with_unfolding_all rfl)

lemma tradeFor_cons (df : List Bar) (row first : Bar) (rest : List Bar) (ov : Bool)
    (h : hitTarget df row.datetime (round2 (1.05 * row.close)) = first :: rest) :
    tradeFor df row ov =
      { entryDate := row.datetime
        entryPrice := row.close
        exitDate := some first.datetime
        exitHitPrice := some first.high
        outcome := "Target Hit"
        holdingDays := some (first.datetime - row.datetime)
        overlapStatus := if ov then "Yes" else "No" } := by
  unfold tradeFor
  rw [h]

lemma tradeFor_nil (df : List Bar) (row : Bar) (ov : Bool)
    (h : hitTarget df row.datetime (round2 (1.05 * row.close)) = []) :
    tradeFor df row ov =
      { entryDate := row.datetime
        entryPrice := row.close
        exitDate := none
        exitHitPrice := none
        outcome := "Open Trade"
        holdingDays := none
        overlapStatus := if ov then "Yes" else "No" } := by
  unfold tradeFor
  rw [h]

lemma deltaAt_cases (closes : List ℚ) (i : ℕ) :
    (∃ d : ℚ, deltaAt closes i = FVal.num d) ∨ deltaAt closes i = FVal.nan := by
  unfold deltaAt
  cases i with
  | zero => exact Or.inr rfl
  | succ j =>
      cases h1 : closes[j + 1]? <;> cases h2 : closes[j]? <;> simp [h1, h2]

lemma gainAt_num (closes : List ℚ) (j : ℕ) :
    ∃ q : ℚ, 0 ≤ q ∧ gainAt closes j = FVal.num q := by
  unfold gainAt
  rcases deltaAt_cases closes j with ⟨d, hd⟩ | hd
  · by_cases hpos : 0 < d
    · exact ⟨d, le_of_lt hpos, by rw [hd]; simp [fPos, hpos]⟩
    · exact ⟨0, le_refl 0, by rw [hd]; simp [fPos, hpos]⟩
  · exact ⟨0, le_refl 0, by rw [hd]; simp [fPos]⟩

lemma avgGainAt_num (closes : List ℚ) (j : ℕ) :
    ∃ g : ℚ, 0 ≤ g ∧ avgGainAt closes (j + 1) = FVal.num g := by
  obtain ⟨a, ha, hga⟩ := gainAt_num closes j
  obtain ⟨b, hb, hgb⟩ := gainAt_num closes (j + 1)
  refine ⟨(a + b) / 2, by positivity, ?_⟩
  simp only [avgGainAt, hga, hgb, fAdd, fDiv]
  norm_num

/-! ## Claim theorems -/

/-- C1: the simulator emits a "Target Hit" outcome for an entry iff some
bar strictly after the entry timestamp has `high ≥ round(1.05·close, 2)`;
when it does, the exit is the earliest such bar and the recorded holding
days are the whole-day difference between that bar's timestamp and the
entry's. -/
theorem target_hit_iff_first_bar (df entries : List Bar)
    (hs : df.Pairwise fun a b => a.datetime < b.datetime) :
    ∀ tr ∈ (evaluate_targets df entries).2,
      (tr.outcome = "Target Hit" ↔
        ∃ b ∈ df, tr.entryDate < b.datetime ∧ round2 (1.05 * tr.entryPrice) ≤ b.high) ∧
      (tr.outcome = "Target Hit" →
        ∃ b ∈ df, tr.entryDate < b.datetime ∧ round2 (1.05 * tr.entryPrice) ≤ b.high ∧
          tr.exitDate = some b.datetime ∧
          tr.holdingDays = some (b.datetime - tr.entryDate) ∧
          ∀ b2 ∈ df, tr.entryDate < b2.datetime →
            round2 (1.05 * tr.entryPrice) ≤ b2.high → b.datetime ≤ b2.datetime) := by
  intro tr htr
  obtain ⟨suf, hsuf, hmem⟩ := foldl_trades_suffix df entries initState
  have hsuf2 : (evaluate_targets df entries).2 = suf := by
    show (List.foldl (evalStep df) initState entries).trades = suf
    rw [hsuf]
    rfl
  rw [hsuf2] at htr
  obtain ⟨row, _, ov, hov⟩ := hmem tr htr
  subst hov
  cases h : hitTarget df row.datetime (round2 (1.05 * row.close)) with
  | nil =>
      have hno : ¬ ∃ b ∈ df, row.datetime < b.datetime ∧
          round2 (1.05 * row.close) ≤ b.high := by
        rintro ⟨b, hb, hd, ht⟩
        exact (hitTarget_nil_iff df _ _).mp h b hb hd ht
      rw [tradeFor_nil df row ov h]
      exact ⟨iff_of_false (show ¬("Open Trade" = "Target Hit") by decide) hno,
        fun hc => absurd hc (show ¬("Open Trade" = "Target Hit") by decide)⟩
  | cons first rest =>
      obtain ⟨hfd, hfe, hft, hmin⟩ := hitTarget_cons_spec df hs _ _ first rest h
      rw [tradeFor_cons df row first rest ov h]
      exact ⟨iff_of_true rfl ⟨first, hfd, hfe, hft⟩,
        fun _ => ⟨first, hfd, hfe, hft, rfl, rfl, hmin⟩⟩

/-- Witness for C1: the theorem applied to the concrete series `dfEx` and
entry list `entriesEx`. -/
theorem target_hit_iff_first_bar_witness :
    List.Pairwise (fun a b => a.datetime < b.datetime) dfEx ∧
    ∀ tr ∈ (evaluate_targets dfEx entriesEx).2,
      (tr.outcome = "Target Hit" ↔
        ∃ b ∈ dfEx, tr.entryDate < b.datetime ∧ round2 (1.05 * tr.entryPrice) ≤ b.high) ∧
      (tr.outcome = "Target Hit" →
        ∃ b ∈ dfEx, tr.entryDate < b.datetime ∧ round2 (1.05 * tr.entryPrice) ≤ b.high ∧
          tr.exitDate = some b.datetime ∧
          tr.holdingDays = some (b.datetime - tr.entryDate) ∧
          ∀ b2 ∈ dfEx, tr.entryDate < b2.datetime →
            round2 (1.05 * tr.entryPrice) ≤ b2.high → b.datetime ≤ b2.datetime) :=
  ⟨of_decide_eq_true (by with_unfolding_all rfl),
   target_hit_iff_first_bar dfEx entriesEx (of_decide_eq_true (by with_unfolding_all rfl))⟩

/-- C2: for a positive total entry count the weighted score is the
fixed-weight linear combination of the bucket percentages (0.50, 0.25,
0.125, 0.075, 0.05, −0.075, −0.10) rounded to 2 decimals, and with all
entries in the ≤5-day bucket and nothing elsewhere it is exactly 50. -/
theorem score_is_weighted_formula (r : Results) (n : ℕ) (h : 0 < n) :
    calculate_weighted_score r n =
      round2 (0.50 * ((r.le5 : ℚ) / n * 100) + 0.25 * ((r.d5to10 : ℚ) / n * 100) +
        0.125 * ((r.d10to20 : ℚ) / n * 100) + 0.075 * ((r.d20to30 : ℚ) / n * 100) +
        0.05 * ((r.gt30 : ℚ) / n * 100) - 0.075 * ((r.neverHit : ℚ) / n * 100) -
        0.10 * ((r.overlapping : ℚ) / n * 100)) ∧
    (r.le5 = n → r.d5to10 = 0 → r.d10to20 = 0 → r.d20to30 = 0 → r.gt30 = 0 →
      r.neverHit = 0 → r.overlapping = 0 → calculate_weighted_score r n = 50) := by
  have hne : n ≠ 0 := Nat.pos_iff_ne_zero.mp h
  have hq : (n : ℚ) ≠ 0 := Nat.cast_ne_zero.mpr hne
  constructor
  · unfold calculate_weighted_score
    rw [if_neg hne]
    congr 1
    ring
  · intro h1 h2 h3 h4 h5 h6 h7
    unfold calculate_weighted_score
    rw [if_neg hne, h1, h2, h3, h4, h5, h6, h7, div_self hq]
    norm_num
    exact of_decide_eq_true (by with_unfolding_all rfl)

/-- Witness for C2: 5 entries, all in the ≤5-day bucket, score exactly 50. -/
theorem score_is_weighted_formula_witness :
    0 < 5 ∧ calculate_weighted_score ⟨5, 0, 0, 0, 0, 0, 0⟩ 5 = 50 :=
  ⟨by decide,
    (score_is_weighted_formula ⟨5, 0, 0, 0, 0, 0, 0⟩ 5 (by decide)).2
      rfl rfl rfl rfl rfl rfl rfl⟩

/-- C4: the six outcome buckets partition the entries: each simulator step
increments exactly one of the six bucket counters, and over a whole run
their sum equals the number of entries (the Overlapping counter is
separate). -/
theorem buckets_partition (df entries : List Bar) :
    bucketSum (evaluate_targets df entries).1 = entries.length ∧
    ∀ (st : SimState) (row : Bar),
      bucketSum (evalStep df st row).results = bucketSum st.results + 1 := by
  constructor
  · have main : ∀ (l : List Bar) (st : SimState),
        bucketSum (l.foldl (evalStep df) st).results = bucketSum st.results + l.length := by
      intro l
      induction l with
      | nil => intro st; simp
      | cons row rest ih =>
          intro st
          simp only [List.foldl_cons, List.length_cons]
          rw [ih (evalStep df st row), bucketSum_evalStep]
          omega
    have h0 : bucketSum initState.results = 0 := rfl
    simpa [evaluate_targets, h0] using main entries initState
  · exact fun st row => bucketSum_evalStep df st row

/-- C8: a symbol with zero entries is not an error: the scorer returns
exactly 0 without dividing, and the summary row is all zeros. -/
theorem zero_entries_zero_summary (df : List Bar) :
    mkSummaryRow df [] = ⟨0, 0, 0, 0, 0, 0, 0, 0, 0⟩ ∧
    ∀ r : Results, calculate_weighted_score r 0 = 0 := by
  constructor
  · simp [mkSummaryRow, evaluate_targets, initState, pctOr0, calculate_weighted_score,
      round2_zero]
  · intro r
    rfl

/-- C3: within one run `open_trade_pending` is monotone: once set (by a
Never-Hit entry, to that entry's timestamp) it is never cleared or
advanced, and every later entry whose timestamp exceeds it is counted as
Overlapping (counter incremented and trade flagged "Yes") regardless of
that entry's own outcome. -/
theorem pending_monotone_overlap :
    (∀ (df : List Bar) (st : SimState) (entries : List Bar) (p : ℤ),
        st.pending = some p →
        (entries.foldl (evalStep df) st).pending = some p) ∧
    (∀ (df : List Bar) (st : SimState) (row : Bar) (p : ℤ),
        st.pending = some p → p < row.datetime →
        (evalStep df st row).results.overlapping = st.results.overlapping + 1 ∧
        (evalStep df st row).trades = st.trades ++ [tradeFor df row true] ∧
        (tradeFor df row true).overlapStatus = "Yes") ∧
    (∀ (df : List Bar) (st : SimState) (row : Bar),
        st.pending = none → (evalStep df st row).pending ≠ none →
        (evalStep df st row).pending = some row.datetime ∧
        (evalStep df st row).results.neverHit = st.results.neverHit + 1 ∧
        (evalStep df st row).trades = st.trades ++ [tradeFor df row false] ∧
        (tradeFor df row false).outcome = "Open Trade") := by
  refine ⟨fun df st entries p h => foldl_pending_some df entries st p h, ?_, ?_⟩
  · intro df st row p hp hlt
    have hov : overlapB st.pending row.datetime = true := by
      rw [hp]; simpa [overlapB] using hlt
    refine ⟨?_, ?_, ?_⟩
    · cases h : hitTarget df row.datetime (round2 (1.05 * row.close)) with
      | nil => simp [evalStep, h, hov]
      | cons first rest => simp [evalStep, h, hov, bucketInc_overlapping]
    · rw [evalStep_trades, hov]
    · cases h : hitTarget df row.datetime (round2 (1.05 * row.close)) with
      | nil => rw [tradeFor_nil df row true h]; rfl
      | cons first rest => rw [tradeFor_cons df row first rest true h]; rfl
  · intro df st row hp hne
    have hov : overlapB st.pending row.datetime = false := by
      rw [hp]; rfl
    cases h : hitTarget df row.datetime (round2 (1.05 * row.close)) with
    | cons first rest =>
        exact absurd (by simp [evalStep, h, hp]) hne
    | nil =>
        refine ⟨by simp [evalStep, h, hp], by simp [evalStep, h, hov], ?_, ?_⟩
        · rw [evalStep_trades, hov]
        · rw [tradeFor_nil df row false h]

/-- Witness for C3: over `dfEx` with an already-set pending marker the
marker survives the whole run, an entry past it is flagged overlapping,
and from an unset marker a Never-Hit entry sets it to its own timestamp. -/
theorem pending_monotone_overlap_witness :
    (List.foldl (evalStep dfEx) stPendEx entriesEx).pending = some 0 ∧
    ((evalStep dfEx stPendEx barEx).results.overlapping =
        stPendEx.results.overlapping + 1 ∧
      (tradeFor dfEx barEx true).overlapStatus = "Yes") ∧
    (evalStep [] initState barEx).pending = some barEx.datetime :=
  ⟨pending_monotone_overlap.1 dfEx stPendEx entriesEx 0 rfl,
   ⟨(pending_monotone_overlap.2.1 dfEx stPendEx barEx 0 rfl (by decide)).1,
    (pending_monotone_overlap.2.1 dfEx stPendEx barEx 0 rfl (by decide)).2.2⟩,
   (pending_monotone_overlap.2.2 [] initState barEx rfl
      (of_decide_eq_true (by with_unfolding_all rfl))).1⟩

/-- C9: every "Target Hit" trade records as exit price the `high` of the
hit bar itself (a bar strictly after the entry), so the recorded exit
price is at least the target `round(1.05·close, 2)`. -/
theorem exit_price_from_hit_bar (df entries : List Bar) (tr : Trade)
    (htr : tr ∈ (evaluate_targets df entries).2)
    (hout : tr.outcome = "Target Hit") :
    ∃ b ∈ df, tr.entryDate < b.datetime ∧ tr.exitHitPrice = some b.high ∧
      round2 (1.05 * tr.entryPrice) ≤ b.high := by
  obtain ⟨suf, hsuf, hmem⟩ := foldl_trades_suffix df entries initState
  have hsuf2 : (evaluate_targets df entries).2 = suf := by
    show (List.foldl (evalStep df) initState entries).trades = suf
    rw [hsuf]
    rfl
  rw [hsuf2] at htr
  obtain ⟨row, _, ov, hov⟩ := hmem tr htr
  subst hov
  cases h : hitTarget df row.datetime (round2 (1.05 * row.close)) with
  | nil =>
      rw [tradeFor_nil df row ov h] at hout
      exact absurd hout (show ¬("Open Trade" = "Target Hit") by decide)
  | cons first rest =>
      have hmemf : first ∈ hitTarget df row.datetime (round2 (1.05 * row.close)) := by
        rw [h]; exact List.mem_cons_self _ _
      obtain ⟨hfd, hfe, hft⟩ := (mem_hitTarget df _ _ first).mp hmemf
      rw [tradeFor_cons df row first rest ov h]
      exact ⟨first, hfd, hfe, rfl, hft⟩

/-- Witness for C9: the first trade of the run over `dfEx` exits at the
hit bar's high of 11, at least its target 10.5. -/
theorem exit_price_from_hit_bar_witness :
    trEx ∈ (evaluate_targets dfEx entriesEx).2 ∧ trEx.outcome = "Target Hit" ∧
    ∃ b ∈ dfEx, trEx.entryDate < b.datetime ∧ trEx.exitHitPrice = some b.high ∧
      round2 (1.05 * trEx.entryPrice) ≤ b.high :=
  ⟨of_decide_eq_true (by with_unfolding_all rfl), rfl,
   exit_price_from_hit_bar dfEx entriesEx trEx
     (of_decide_eq_true (by with_unfolding_all rfl)) rfl⟩

/-- C10: an entry is never marked overlapping by itself: with no pending
marker the emitted trade is flagged "No" (the overlap check reads the
state before the marker can be set), the marker only changes when it was
unset, and the first trade of any run is flagged "No". -/
theorem no_self_overlap :
    (∀ (df : List Bar) (st : SimState) (row : Bar), st.pending = none →
        (evalStep df st row).trades = st.trades ++ [tradeFor df row false] ∧
        (tradeFor df row false).overlapStatus = "No") ∧
    (∀ (df : List Bar) (st : SimState) (row : Bar),
        (evalStep df st row).pending ≠ st.pending → st.pending = none) ∧
    (∀ (df : List Bar) (row : Bar) (rest : List Bar),
        (evaluate_targets df (row :: rest)).2.head? =
          some (tradeFor df row false)) := by
  have h1 : ∀ (df : List Bar) (st : SimState) (row : Bar), st.pending = none →
      (evalStep df st row).trades = st.trades ++ [tradeFor df row false] := by
    intro df st row hp
    have hov : overlapB st.pending row.datetime = false := by rw [hp]; rfl
    rw [evalStep_trades, hov]
  refine ⟨fun df st row hp => ⟨h1 df st row hp, ?_⟩, ?_, ?_⟩
  · cases h : hitTarget df row.datetime (round2 (1.05 * row.close)) with
    | nil => rw [tradeFor_nil df row false h]; rfl
    | cons first rest => rw [tradeFor_cons df row first rest false h]; rfl
  · intro df st row hne
    cases hp : st.pending with
    | none => rfl
    | some p => exact absurd (by rw [evalStep_pending_some df st row p hp, hp]) hne
  · intro df row rest
    obtain ⟨suf, hsuf, _⟩ := foldl_trades_suffix df rest (evalStep df initState row)
    have h2 : (evalStep df initState row).trades = [tradeFor df row false] :=
      h1 df initState row rfl
    show (List.foldl (evalStep df) initState (row :: rest)).trades.head? = _
    rw [List.foldl_cons, hsuf, h2]
    rfl

/-- Witness for C10 at concrete data: first-step trade list and flag from
an unset marker, pending-change implies the marker was unset, and the
head trade of a fresh run is flagged "No". -/
theorem no_self_overlap_witness :
    ((evalStep dfEx initState barEx).trades =
        initState.trades ++ [tradeFor dfEx barEx false] ∧
      (tradeFor dfEx barEx false).overlapStatus = "No") ∧
    initState.pending = none ∧
    (evaluate_targets [] [barEx]).2.head? = some (tradeFor [] barEx false) :=
  ⟨no_self_overlap.1 dfEx initState barEx rfl,
   no_self_overlap.2.1 [] initState barEx
     (of_decide_eq_true (by with_unfolding_all rfl)),
   no_self_overlap.2.2 [] barEx []⟩

/-- C5: a row of the indicator-augmented frame is selected as an Entry iff
it satisfies all four conditions `%K < 20`, `%D < 20`, `RSI_2 < 15`,
`close > 200DMA` (NaN operands compare false, so any undefined operand
excludes the row); the selection is an order-preserving sublist of the
frame, and the filter is a pure function of the frame. -/
theorem entries_filter_spec (frame : List IRow) :
    List.Sublist (entriesOf frame) frame ∧
    (∀ r : IRow, r ∈ entriesOf frame ↔
        r ∈ frame ∧ fLtC r.kv 20 = true ∧ fLtC r.dv 20 = true ∧
          fLtC r.rsiv 15 = true ∧ fGtF r.close r.mav = true) ∧
    (∀ r ∈ frame,
        r.kv = FVal.nan ∨ r.dv = FVal.nan ∨ r.rsiv = FVal.nan ∨
          r.mav = FVal.nan ∨ r.close = FVal.nan →
        r ∉ entriesOf frame) := by
  have hmem : ∀ r : IRow, r ∈ entriesOf frame ↔
      r ∈ frame ∧ fLtC r.kv 20 = true ∧ fLtC r.dv 20 = true ∧
        fLtC r.rsiv 15 = true ∧ fGtF r.close r.mav = true := by
    intro r
    simp only [entriesOf, List.mem_filter, entryPred, Bool.and_eq_true, and_assoc]
  refine ⟨List.filter_sublist _, hmem, ?_⟩
  intro r _ hnan hin
  obtain ⟨_, hk, hd2, hr2, hc⟩ := (hmem r).mp hin
  rcases hnan with h | h | h | h | h
  · rw [h] at hk; simp [fLtC] at hk
  · rw [h] at hd2; simp [fLtC] at hd2
  · rw [h] at hr2; simp [fLtC] at hr2
  · rw [h] at hc; cases hcl : r.close <;> rw [hcl] at hc <;> simp [fGtF] at hc
  · rw [h] at hc; simp [fGtF] at hc

/-- Witness for C5: a NaN-%K row is rejected, a row meeting all four
conditions is selected. -/
theorem entries_filter_spec_witness :
    rowNanEx ∈ [rowNanEx, rowOkEx] ∧ rowNanEx.kv = FVal.nan ∧
    rowNanEx ∉ entriesOf [rowNanEx, rowOkEx] ∧
    rowOkEx ∈ entriesOf [rowNanEx, rowOkEx] :=
  ⟨by decide, rfl,
   (entries_filter_spec [rowNanEx, rowOkEx]).2.2 rowNanEx (by decide) (Or.inl rfl),
   ((entries_filter_spec [rowNanEx, rowOkEx]).2.1 rowOkEx).mpr
     ⟨by decide, by decide, by decide, by decide, by decide⟩⟩

/-- C6 counterexample: with closes 1, 2, 3 (two consecutive gains) the
trailing 2-bar average loss at row 2 is zero, yet `rs = avg_gain/avg_loss`
is `+inf` — not NaN/undefined — and `RSI_2 = 100 - 100/(1+rs)` evaluates
to the definite number 100, which is then used as an ordinary comparison
operand (`RSI_2 < 15` is false). -/
theorem rsi_zero_loss_counterexample :
    avgLossAt [(1 : ℚ), 2, 3] 2 = FVal.num 0 ∧
    rsAt [(1 : ℚ), 2, 3] 2 = FVal.inf ∧
    rsAt [(1 : ℚ), 2, 3] 2 ≠ FVal.nan ∧
    RSI_2 [(1 : ℚ), 2, 3] 2 = FVal.num 100 ∧
    RSI_2 [(1 : ℚ), 2, 3] 2 ≠ FVal.nan ∧
    fLtC (RSI_2 [(1 : ℚ), 2, 3] 2) 15 = false :=
  of_decide_eq_true (by with_unfolding_all rfl)

/-- C6 amended: when the trailing 2-bar average loss is zero, `rs` is NaN
(undefined) only in the 0/0 case of a zero average gain, and then NaN
propagates through `RSI_2`; with a positive average gain `rs` is `+inf`
and `RSI_2` is the definite value 100.  In both cases the downstream
entry comparison `RSI_2 < 15` evaluates to false, so no entry arises. -/
theorem rsi_zero_divisor (closes : List ℚ) (i : ℕ)
    (h0 : avgLossAt closes i = FVal.num 0) :
    ((avgGainAt closes i = FVal.num 0 ∧ rsAt closes i = FVal.nan ∧
        RSI_2 closes i = FVal.nan) ∨
      (∃ g : ℚ, 0 < g ∧ avgGainAt closes i = FVal.num g ∧
        rsAt closes i = FVal.inf ∧ RSI_2 closes i = FVal.num 100)) ∧
    fLtC (RSI_2 closes i) 15 = false := by
  cases i with
  | zero => simp [avgLossAt] at h0
  | succ j =>
      obtain ⟨g, hg0, hg⟩ := avgGainAt_num closes j
      rcases eq_or_lt_of_le hg0 with hz | hpos
      · have hrs : rsAt closes (j + 1) = FVal.nan := by
          rw [rsAt, hg, ← hz, h0]
          simp [fDiv]
        have hrsi : RSI_2 closes (j + 1) = FVal.nan := by
          rw [RSI_2, hrs]
          rfl
        exact ⟨Or.inl ⟨by rw [hg, ← hz], hrs, hrsi⟩, by rw [hrsi]; rfl⟩
      · have hrs : rsAt closes (j + 1) = FVal.inf := by
          rw [rsAt, hg, h0]
          simp [fDiv, hpos]
        have hrsi : RSI_2 closes (j + 1) = FVal.num 100 := by
          rw [RSI_2, hrs]
          show FVal.num (100 + -0) = FVal.num 100
          norm_num
        exact ⟨Or.inr ⟨g, hpos, hg, hrs, hrsi⟩, by
          rw [hrsi]
          simp only [fLtC, decide_eq_false_iff_not]
          norm_num⟩

/-- Witness for C6 amended: the zero-average-loss hypothesis holds at
closes 1, 2, 3 and row 2, where the positive-gain branch applies. -/
theorem rsi_zero_divisor_witness :
    avgLossAt [(1 : ℚ), 2, 3] 2 = FVal.num 0 ∧
    (((avgGainAt [(1 : ℚ), 2, 3] 2 = FVal.num 0 ∧
        rsAt [(1 : ℚ), 2, 3] 2 = FVal.nan ∧
        RSI_2 [(1 : ℚ), 2, 3] 2 = FVal.nan) ∨
      (∃ g : ℚ, 0 < g ∧ avgGainAt [(1 : ℚ), 2, 3] 2 = FVal.num g ∧
        rsAt [(1 : ℚ), 2, 3] 2 = FVal.inf ∧
        RSI_2 [(1 : ℚ), 2, 3] 2 = FVal.num 100)) ∧
      fLtC (RSI_2 [(1 : ℚ), 2, 3] 2) 15 = false) :=
  ⟨of_decide_eq_true (by with_unfolding_all rfl),
   rsi_zero_divisor [(1 : ℚ), 2, 3] 2 (of_decide_eq_true (by with_unfolding_all rfl))⟩

end Stors
